import Mathlib

/-!
Verification of the frame-distribution core of the petcam service
(`src/main.py`): the latest-frame slot (`frame_buffer = deque(maxlen=1)`),
the capture loop (`set_frames`), the per-viewer stream generator
(`get_frames`) and the lifecycle controller (`lifespan`).

Frames are modelled as byte lists.  The slot is the Python deque with
`maxlen=1`: a list of frames that `append` truncates to its last
`maxlen` elements.  External collaborators (camera, JPEG encoder,
scheduler) are modelled as per-iteration oracles.
-/

/-- A byte payload (an encoded JPEG frame, or any byte string). -/
abbrev Bytes := List Nat

/-- The fixed capacity of `frame_buffer`: `deque(maxlen=1)` in `main.py`. -/
def maxlen : Nat := 1

/-- The write `frame_buffer.append(x)` on a deque with `maxlen=1`: the new
element is appended on the right and elements are discarded from the left
until the length is back within `maxlen`. -/
def publish (buf : List Bytes) (f : Bytes) : List Bytes :=
  let l := buf ++ [f]
  l.drop (l.length - maxlen)

/-- The read in `get_frames` (`main.py` lines 49-51): if `frame_buffer` is
falsy (empty) the reader skips, otherwise it takes `frame_buffer[-1]`,
the rightmost element.  Returns `none` for the empty slot. -/
def peek (buf : List Bytes) : Option Bytes :=
  buf.getLast?

/-- One operation on the shared slot: a producer `publish` or a consumer
`peek`. -/
inductive Op
  | publish (f : Bytes)
  | peek
deriving DecidableEq

/-- Run a sequence of slot operations starting from buffer `buf`.
Returns the final buffer and the list of results of the `peek`
operations, in order.  `publish` mutates the deque; `peek` is the
non-mutating `frame_buffer[-1]` read. -/
def runOps (buf : List Bytes) : List Op → List Bytes × List (Option Bytes)
  | [] => (buf, [])
  | Op.publish f :: rest => runOps (publish buf f) rest
  | Op.peek :: rest =>
      let r := runOps buf rest
      (r.1, peek buf :: r.2)

/-- The byte-string literal from `main.py` line 52:
`b'--frame\r\nContent-Type: image/jpeg\r\n\r\n'`. -/
def chunkHeader : Bytes :=
  "--frame\r\nContent-Type: image/jpeg\r\n\r\n".data.map Char.toNat

/-- The trailing `b'\r\n'` from `main.py` line 52. -/
def crlfBytes : Bytes :=
  "\r\n".data.map Char.toNat

/-- One pass of the `get_frames` body over the slot: skip (`none`) when
the buffer is empty, otherwise the yielded chunk
`b'--frame...' + jpeg_bytes + b'\r\n'` (`main.py` lines 49-52). -/
def getFramesChunk (buf : List Bytes) : Option Bytes :=
  (peek buf).map fun j => chunkHeader ++ j ++ crlfBytes

/-- Modelled from the spec (§4.3, §6): the multipart chunk layout as the
spec words it — a boundary marker line, a Content-Type header line, a
blank line, the raw frame bytes, then a trailing line break. -/
def specBoundaryLine : Bytes :=
  "--frame\r\n".data.map Char.toNat

/-- Modelled from the spec: the Content-Type header line of one chunk. -/
def specContentTypeLine : Bytes :=
  "Content-Type: image/jpeg\r\n".data.map Char.toNat

/-- Modelled from the spec: the blank line separating headers from body. -/
def specBlankLine : Bytes :=
  "\r\n".data.map Char.toNat

/-- Modelled from the spec: one whole emitted chunk for frame `f`. -/
def specChunk (f : Bytes) : Bytes :=
  specBoundaryLine ++ specContentTypeLine ++ specBlankLine ++ f ++ crlfBytes

/-- The byte content `b"JPEGDATA"` used by the framing scenario. -/
def jpegData : Bytes :=
  "JPEGDATA".data.map Char.toNat

/-- The oracle for one iteration of the `set_frames` loop (`main.py`
lines 28-36): the value `stop_event.is_set()` returns at the loop head,
the success flag `ret` of `cap.read()`, the success flag `ret` of
`cv2.imencode`, and the bytes `jpeg.tobytes()` produced on success. -/
structure CaptureIter where
  stop : Bool
  readOk : Bool
  encodeOk : Bool
  encoded : Bytes
deriving DecidableEq

/-- An observable action of the capture loop: appending a frame to the
shared buffer, or the `time.sleep` call with its duration in
milliseconds. -/
inductive CEvent
  | publish (f : Bytes)
  | sleep (ms : Nat)
deriving DecidableEq

/-- The argument of `time.sleep(0.034)` in `main.py` line 36, in
milliseconds. -/
def sleepMs : Nat := 34

/-- The `while not stop_event.is_set()` loop of `set_frames`
(`main.py` lines 28-36), driven by a finite list of iteration oracles.
Returns the emitted event trace and whether the loop exited because the
stop flag was observed.  Each iteration: check the stop flag at the loop
head; `continue` without publishing when the read fails; `continue`
without publishing when the encode fails; otherwise append the encoded
bytes to the buffer and sleep. -/
def captureRun : List CaptureIter → List CEvent × Bool
  | [] => ([], false)
  | it :: rest =>
      if it.stop then ([], true)
      else if it.readOk = false then captureRun rest
      else if it.encodeOk = false then captureRun rest
      else
        let r := captureRun rest
        (CEvent.publish it.encoded :: CEvent.sleep sleepMs :: r.1, r.2)

/-- The whole `set_frames` body (`main.py` lines 22-38): if
`cap.isOpened()` is false the function prints and returns at once,
emitting nothing; otherwise it enters the capture loop. -/
def setFrames (opened : Bool) (its : List CaptureIter) : List CEvent :=
  if opened then (captureRun its).1 else []

/-- The frames a capture trace appended to the shared buffer, in order. -/
def tracePublishes : List CEvent → List Bytes
  | [] => []
  | CEvent.publish f :: rest => f :: tracePublishes rest
  | CEvent.sleep _ :: rest => tracePublishes rest

/-- Total milliseconds slept over a capture trace. -/
def totalSleep (trace : List CEvent) : Nat :=
  trace.foldr
    (fun e acc =>
      match e with
      | CEvent.sleep m => m + acc
      | CEvent.publish _ => acc)
    0

/-- Apply a capture trace's published frames to a slot buffer. -/
def applyTrace (trace : List CEvent) (buf : List Bytes) : List Bytes :=
  (tracePublishes trace).foldl publish buf

/-- Checks that in a capture trace every published frame is immediately
followed by the fixed inter-frame sleep. -/
def pubThenSleep : List CEvent → Bool
  | [] => true
  | CEvent.publish _ :: rest =>
      match rest with
      | CEvent.sleep m :: _ => (m == sleepMs) && pubThenSleep rest
      | _ => false
  | CEvent.sleep _ :: rest => pubThenSleep rest

/-- Checks that every sleep in a capture trace has the nominal duration. -/
def sleepsNominal (trace : List CEvent) : Bool :=
  trace.all fun e =>
    match e with
    | CEvent.sleep m => m == sleepMs
    | CEvent.publish _ => true

/-- A capture source that fails every 3rd read and otherwise yields a
frame that encodes to `f`: `n` groups of two successful reads followed
by one failed read, with the stop flag never set. -/
def failEvery3 (f : Bytes) : Nat → List CaptureIter
  | 0 => []
  | n + 1 =>
      ⟨false, true, true, f⟩ :: ⟨false, true, true, f⟩ ::
        ⟨false, false, true, f⟩ :: failEvery3 f n

/-- An observable action of the lifecycle controller `lifespan`
(`main.py` lines 57-70): creating the stop event, starting the camera
thread, joining (blocking on) the camera thread, calling
`stop_event.set()`, or letting an exception with the given message
propagate out to the host. -/
inductive LEvent
  | createStop
  | startThread
  | joinThread
  | setStop
  | deliver (msg : String)
deriving DecidableEq

/-- The `lifespan` context manager (`main.py` lines 57-70) as an event
trace.  `startupExn` is the exception, if any, raised while creating and
starting the camera thread; `runExn` is the exception, if any, thrown
into the generator at `yield` while the app runs.  The `except` block
re-raises a wrapping Exception carrying the same message, the `finally`
block runs `stop_event.set()` before the exception leaves the function,
and there is no join on the camera thread anywhere. -/
def lifespanTrace (startupExn runExn : Option String) : List LEvent :=
  LEvent.createStop ::
    match startupExn with
    | some e => [LEvent.setStop, LEvent.deliver e]
    | none =>
        LEvent.startThread ::
          match runExn with
          | some e => [LEvent.setStop, LEvent.deliver e]
          | none => [LEvent.setStop]

/-- True when no exception is delivered to the host before
`stop_event.set()` has run. -/
def stopBeforeDeliver : List LEvent → Bool
  | [] => true
  | LEvent.deliver _ :: _ => false
  | LEvent.setStop :: _ => true
  | _ :: rest => stopBeforeDeliver rest

/-- Counts the `stop_event.set()` calls in a lifecycle trace. -/
def countSetStop : List LEvent → Nat
  | [] => 0
  | LEvent.setStop :: rest => countSetStop rest + 1
  | _ :: rest => countSetStop rest

/-- True when the lifecycle trace never blocks on the camera thread. -/
def neverJoins : List LEvent → Bool
  | [] => true
  | LEvent.joinThread :: _ => false
  | _ :: rest => neverJoins rest

/-- True when the lifecycle trace propagates an exception to the host. -/
def deliversExn : List LEvent → Bool
  | [] => false
  | LEvent.deliver _ :: _ => true
  | _ :: rest => deliversExn rest

-- ### Helper lemmas about the slot

/-- `append` on a `maxlen=1` deque always leaves exactly the new element. -/
theorem publish_eq (buf : List Bytes) (f : Bytes) : publish buf f = [f] := by
  simp [publish, maxlen]

/-- Peeking the slot the deque `append` produced yields the new frame. -/
theorem peek_publish (buf : List Bytes) (f : Bytes) :
    peek (publish buf f) = some f := by
  simp [peek, publish_eq]

/-- Every frame in the buffer produced by a run was already in the
starting buffer or was published by one of the operations. -/
theorem runOps_fst_mem (ops : List Op) (buf : List Bytes) (g : Bytes)
    (hg : g ∈ (runOps buf ops).1) : g ∈ buf ∨ Op.publish g ∈ ops := by
  induction ops generalizing buf with
  | nil => exact Or.inl hg
  | cons op rest ih =>
      cases op with
      | publish f =>
          rcases ih (publish buf f) hg with h | h
          · rw [publish_eq] at h
            simp only [List.mem_singleton] at h
            subst h
            exact Or.inr (List.mem_cons_self _ _)
          · exact Or.inr (List.mem_cons_of_mem _ h)
      | peek =>
          rcases ih buf hg with h | h
          · exact Or.inl h
          · exact Or.inr (List.mem_cons_of_mem _ h)

/-- Every recorded `peek` result of a run is `none` or a single frame
that was in the starting buffer or was published by the run. -/
theorem runOps_snd_mem (ops : List Op) (buf : List Bytes) (r : Option Bytes)
    (hr : r ∈ (runOps buf ops).2) :
    r = none ∨ ∃ f, r = some f ∧ (f ∈ buf ∨ Op.publish f ∈ ops) := by
  induction ops generalizing buf with
  | nil => simp [runOps] at hr
  | cons op rest ih =>
      cases op with
      | publish f =>
          rcases ih (publish buf f) hr with h | ⟨g, hg, hmem⟩
          · exact Or.inl h
          · refine Or.inr ⟨g, hg, ?_⟩
            rcases hmem with h | h
            · rw [publish_eq] at h
              simp only [List.mem_singleton] at h
              subst h
              exact Or.inr (List.mem_cons_self _ _)
            · exact Or.inr (List.mem_cons_of_mem _ h)
      | peek =>
          simp only [runOps, List.mem_cons] at hr
          rcases hr with hr | hr
          · subst hr
            cases hbuf : peek buf with
            | none => exact Or.inl rfl
            | some g =>
                refine Or.inr ⟨g, rfl, Or.inl ?_⟩
                have hmem : g ∈ buf.getLast? := hbuf
                rcases List.mem_getLast?_eq_getLast hmem with ⟨h, hg⟩
                exact hg ▸ List.getLast_mem h
          · rcases ih buf hr with h | ⟨g, hg, hmem⟩
            · exact Or.inl h
            · refine Or.inr ⟨g, hg, ?_⟩
              rcases hmem with h | h
              · exact Or.inl h
              · exact Or.inr (List.mem_cons_of_mem _ h)

/-- A run whose last operation is a `publish` of `f` ends with buffer
`[f]`, whatever came before. -/
theorem runOps_fst_concat_publish (ops : List Op) (buf : List Bytes)
    (f : Bytes) : (runOps buf (ops ++ [Op.publish f])).1 = [f] := by
  induction ops generalizing buf with
  | nil => simp [runOps, publish_eq]
  | cons op rest ih =>
      cases op with
      | publish g => simpa [runOps] using ih (publish buf g)
      | peek => simpa [runOps] using ih buf

-- ### Claim theorems: the latest-frame slot

/-- Claim C1: in any interleaved sequence of publish/peek operations on
the slot, a peek performed after any prefix returns either empty or
exactly one complete frame that was published in that prefix, and a
peek on the freshly created slot, before any publish, returns empty. -/
theorem slot_single_complete_frame :
    (∀ pre : List Op, ∀ f : Bytes,
        peek (runOps [] pre).1 = some f → Op.publish f ∈ pre)
      ∧ peek ((runOps [] ([] : List Op)).1) = none
      ∧ peek ([] : List Bytes) = none := by
  refine ⟨?_, rfl, rfl⟩
  intro pre f h
  have hmem : f ∈ (runOps [] pre).1 := by
    have hg : f ∈ ((runOps [] pre).1).getLast? := h
    rcases List.mem_getLast?_eq_getLast hg with ⟨hne, hf⟩
    exact hf ▸ List.getLast_mem hne
  rcases runOps_fst_mem pre [] f hmem with h' | h'
  · simp at h'
  · exact h'

/-- Spot check of C1 at the one-publish sequence and the fresh slot. -/
theorem slot_single_complete_frame_spot :
    Op.publish [74] ∈ [Op.publish ([74] : Bytes)]
      ∧ peek ([] : List Bytes) = none :=
  ⟨slot_single_complete_frame.1 [Op.publish [74]] [74] rfl,
   slot_single_complete_frame.2.2⟩

/-- Claim C2: once `f2` has been published after everything in `ops1`,
no later peek can observe a frame `f1` that is different from `f2` and
is not re-published afterwards — the slot only moves forward. -/
theorem slot_forward_only (ops1 ops2 : List Op) (f1 f2 : Bytes)
    (hne : f1 ≠ f2) (hnp : Op.publish f1 ∉ ops2) :
    ∀ r ∈ (runOps (runOps [] (ops1 ++ [Op.publish f2])).1 ops2).2,
      r ≠ some f1 := by
  intro r hr heq
  subst heq
  rcases runOps_snd_mem ops2 _ (some f1) hr with h | ⟨g, hg, hmem⟩
  · exact Option.some_ne_none f1 h
  · have hgf : g = f1 := by
      exact (Option.some.injEq f1 g ▸ hg).symm ▸ (Option.some.inj hg).symm
    subst hgf
    rcases hmem with h | h
    · rw [runOps_fst_concat_publish] at h
      simp only [List.mem_singleton] at h
      exact hne h
    · exact hnp h

/-- Spot check of C2: after publishing `[2]`, a peek does not see `[1]`. -/
theorem slot_forward_only_spot :
    (runOps (runOps [] ([] ++ [Op.publish ([2] : Bytes)])).1 [Op.peek]).2
        = [some [2]]
      ∧ some ([2] : Bytes) ≠ some ([1] : Bytes) :=
  ⟨by decide,
   slot_forward_only [] [Op.peek] [1] [2] (by decide) (by decide)
     (some [2]) (by decide)⟩

/-- Claim C8: peeks are non-destructive and repeatable — any number of
consecutive peeks with no intervening publish all return the same frame
and leave the slot buffer unchanged. -/
theorem peek_nondestructive (n : Nat) (buf : List Bytes) :
    runOps buf (List.replicate n Op.peek)
      = (buf, List.replicate n (peek buf)) := by
  induction n with
  | zero => rfl
  | succ k ih => simp [List.replicate_succ, runOps, ih]

-- ### Claim theorems: the stream session chunk

/-- The source's chunk literal decomposes into the spec's boundary line,
Content-Type line and blank line. -/
theorem chunkHeader_decompose :
    chunkHeader = specBoundaryLine ++ specContentTypeLine ++ specBlankLine := by
  decide

/-- Claim C3: for every non-empty slot content, the emitted chunk is
exactly the boundary marker, the Content-Type header line, a blank
line, the raw frame bytes, and a trailing line break. -/
theorem stream_chunk_framing (buf : List Bytes) (f : Bytes)
    (h : peek buf = some f) :
    getFramesChunk buf = some (specChunk f) := by
  simp only [getFramesChunk, h, Option.map_some', specChunk,
    chunkHeader_decompose, List.append_assoc]

/-- Spot check of C3: for slot content `b"JPEGDATA"` the chunk is the
exact byte sequence of the spec's framing scenario. -/
theorem stream_chunk_framing_spot :
    getFramesChunk [jpegData] = some (specChunk jpegData)
      ∧ specChunk jpegData
          = ("--frame\r\nContent-Type: image/jpeg\r\n\r\nJPEGDATA\r\n".data.map
              Char.toNat) :=
  ⟨stream_chunk_framing [jpegData] jpegData rfl, by decide⟩

-- ### Helper lemmas about the capture loop

/-- A non-stopped iteration whose read or encode failed contributes
nothing: the loop just continues with the remaining iterations. -/
theorem captureRun_skip (it : CaptureIter) (rest : List CaptureIter)
    (hstop : it.stop = false)
    (hfail : it.readOk = false ∨ it.encodeOk = false) :
    captureRun (it :: rest) = captureRun rest := by
  rcases hfail with hf | hf
  · simp [captureRun, hstop, hf]
  · by_cases hr : it.readOk = false
    · simp [captureRun, hstop, hr]
    · simp [captureRun, hstop, hr, hf]

/-- A run of consecutive peeks returns the same result every time and
leaves the buffer untouched. -/
theorem runOps_replicate_peek (n : Nat) (buf : List Bytes) :
    runOps buf (List.replicate n Op.peek)
      = (buf, List.replicate n (peek buf)) := by
  induction n with
  | zero => rfl
  | succ k ih => simp [List.replicate_succ, runOps, ih]

-- ### Claim theorems: the capture loop

/-- Claim C4: a capture-loop iteration in which the read or the encode
fails publishes nothing and just continues (first part), and against a
source failing every 3rd read the loop publishes on the other two
cycles of every group and never exits (second part). -/
theorem capture_transient_failure_tolerance :
    (∀ (it : CaptureIter) (rest : List CaptureIter),
        it.stop = false → (it.readOk = false ∨ it.encodeOk = false) →
          captureRun (it :: rest) = captureRun rest)
      ∧ (∀ (f : Bytes) (n : Nat),
          tracePublishes (captureRun (failEvery3 f n)).1
              = List.replicate (2 * n) f
            ∧ (captureRun (failEvery3 f n)).2 = false) := by
  constructor
  · exact captureRun_skip
  · intro f n
    induction n with
    | zero => simp [failEvery3, captureRun, tracePublishes]
    | succ k ih =>
        have h2 : 2 * (k + 1) = (2 * k) + 1 + 1 := by omega
        simp [failEvery3, captureRun, tracePublishes, h2,
          List.replicate_succ, ih.1, ih.2]

/-- Spot check of C4 at one failing iteration. -/
theorem capture_transient_failure_tolerance_spot :
    captureRun [⟨false, false, true, [5]⟩] = captureRun ([] : List CaptureIter) :=
  capture_transient_failure_tolerance.1 ⟨false, false, true, [5]⟩ [] rfl
    (Or.inl rfl)

/-- Claim C5: when the camera cannot be opened, `set_frames` emits
nothing at all, so the slot stays empty and every later peek — any
number of them — returns empty. -/
theorem capture_open_failure (its : List CaptureIter) (n : Nat) :
    setFrames false its = []
      ∧ peek (applyTrace (setFrames false its) []) = none
      ∧ (runOps (applyTrace (setFrames false its) [])
            (List.replicate n Op.peek)).2
          = List.replicate n none := by
  refine ⟨rfl, rfl, ?_⟩
  have happ : applyTrace (setFrames false its) [] = [] := rfl
  rw [happ, runOps_replicate_peek]
  rfl

/-- Claim C6: when the stop flag is set from iteration `i` onwards, the
capture loop's trace — its publishes included — is exactly the trace of
the first `i` iterations: nothing further is published after the signal
is observed at a loop head. -/
theorem capture_stop_terminates (its : List CaptureIter) (i : Nat)
    (h : ∀ it ∈ its.drop i, it.stop = true) :
    (captureRun its).1 = (captureRun (its.take i)).1
      ∧ tracePublishes (captureRun its).1
          = tracePublishes (captureRun (its.take i)).1 := by
  have htrace : (captureRun its).1 = (captureRun (its.take i)).1 := by
    induction its generalizing i with
    | nil => simp
    | cons it rest ih =>
        cases i with
        | zero =>
            have hstop : it.stop = true := h it (by simp)
            simp [captureRun, hstop]
        | succ j =>
            have h' : ∀ x ∈ rest.drop j, x.stop = true := by
              intro x hx
              exact h x (by simpa using hx)
            by_cases hstop : it.stop
            · simp [captureRun, hstop]
            · by_cases hr : it.readOk = false
              · simpa [captureRun, hstop, hr] using ih j h'
              · by_cases he : it.encodeOk = false
                · simpa [captureRun, hstop, hr, he] using ih j h'
                · simp [captureRun, hstop, hr, he, ih j h']
  exact ⟨htrace, by rw [htrace]⟩

/-- Spot check of C6 with the signal set before the first iteration. -/
theorem capture_stop_terminates_spot :
    (captureRun [⟨true, true, true, ([] : Bytes)⟩]).1
        = (captureRun (List.take 0 [⟨true, true, true, ([] : Bytes)⟩])).1 :=
  (capture_stop_terminates [⟨true, true, true, []⟩] 0 (by decide)).1

/-- Claim C9: every published frame is immediately followed by the
fixed inter-frame sleep, every sleep lasts the nominal 34 ms — within
one millisecond of 33 ms, and about 30 frames per second (30 frames
take 1020 ms, within 5 percent of one second). -/
theorem capture_fixed_interval (its : List CaptureIter) :
    pubThenSleep (captureRun its).1 = true
      ∧ sleepsNominal (captureRun its).1 = true
      ∧ sleepMs = 34
      ∧ (sleepMs : Int) - 33 ≤ 1 ∧ (33 : Int) - (sleepMs : Int) ≤ 1
      ∧ 1000 ≤ 30 * sleepMs ∧ 30 * sleepMs ≤ 1050 := by
  refine ⟨?_, ?_, rfl, by decide, by decide, by decide, by decide⟩
  · induction its with
    | nil => rfl
    | cons it rest ih =>
        by_cases hstop : it.stop
        · simp [captureRun, hstop, pubThenSleep]
        · by_cases hr : it.readOk = false
          · simpa [captureRun, hstop, hr] using ih
          · by_cases he : it.encodeOk = false
            · simpa [captureRun, hstop, hr, he] using ih
            · simpa [captureRun, hstop, hr, he, pubThenSleep] using ih
  · induction its with
    | nil => rfl
    | cons it rest ih =>
        by_cases hstop : it.stop
        · simp [captureRun, hstop, sleepsNominal]
        · by_cases hr : it.readOk = false
          · simpa [captureRun, hstop, hr] using ih
          · by_cases he : it.encodeOk = false
            · simpa [captureRun, hstop, hr, he] using ih
            · simpa [captureRun, hstop, hr, he, sleepsNominal] using ih

/-- Claim C10: over any run in which every iteration fails its read or
its encode (and the stop flag stays clear), the loop emits no events at
all — in particular it sleeps for a total of zero milliseconds: failing
iterations retry immediately, with no inter-frame delay. -/
theorem capture_busy_loop_on_failure (its : List CaptureIter)
    (h : ∀ it ∈ its,
        it.stop = false ∧ (it.readOk = false ∨ it.encodeOk = false)) :
    (captureRun its).1 = [] ∧ totalSleep (captureRun its).1 = 0 := by
  have htrace : (captureRun its).1 = [] := by
    induction its with
    | nil => rfl
    | cons it rest ih =>
        have hit := h it (List.mem_cons_self _ _)
        have hrest : ∀ x ∈ rest,
            x.stop = false ∧ (x.readOk = false ∨ x.encodeOk = false) :=
          fun x hx => h x (List.mem_cons_of_mem _ hx)
        rw [captureRun_skip it rest hit.1 hit.2]
        exact ih hrest
  exact ⟨htrace, by rw [htrace]; rfl⟩

/-- Spot check of C10 on a two-iteration all-failing run. -/
theorem capture_busy_loop_on_failure_spot :
    (captureRun [⟨false, false, true, ([] : Bytes)⟩,
        ⟨false, true, false, ([] : Bytes)⟩]).1 = []
      ∧ totalSleep (captureRun [⟨false, false, true, ([] : Bytes)⟩,
          ⟨false, true, false, ([] : Bytes)⟩]).1 = 0 :=
  capture_busy_loop_on_failure
    [⟨false, false, true, []⟩, ⟨false, true, false, []⟩] (by decide)

-- ### Claim theorems: the lifecycle controller

/-- Claim C7: on every path through `lifespan` — normal shutdown, a
startup-phase exception, or an exception while the app runs — the stop
event is set exactly once, any exception reaches the host only after
the stop event was set, the controller never blocks on the camera
thread, and an exception is propagated to the host exactly when the
startup phase or the app raised one. -/
theorem lifespan_stop_on_all_paths (s r : Option String) :
    countSetStop (lifespanTrace s r) = 1
      ∧ stopBeforeDeliver (lifespanTrace s r) = true
      ∧ neverJoins (lifespanTrace s r) = true
      ∧ deliversExn (lifespanTrace s r) = (s.isSome || r.isSome) := by
  cases s <;> cases r <;> exact ⟨rfl, rfl, rfl, rfl⟩
